import Mathlib

/-!
Verification of the OAuth-audit-log analysis pipeline (`src/main.py`).

The program is a small Python 2 script built on pandas + pandasql (SQLite):
it loads a CSV of `(event, date, untitled)` rows, keeps the rows whose
`event` matches one of three `LIKE '%marker%'` patterns, decomposes each
surviving event text with the regex
`^(.+) (revoked|authorized) access to (.+) for (.+) scopes$`, parses each
date text with `datetime.strptime(s, "%B %d %Y %I:%M:%S %p %Z")` after
collapsing whitespace runs, sorts by date, groups by user and prints a
per-user report.

This file gives a shallow embedding of that pipeline over `List Char`
strings and proves/refutes the specification claims about it.  Machine
strings are `List Char`; fallible steps return an explicit result type
carrying the Python exception message.
-/

set_option maxRecDepth 10000

abbrev Str := List Char

/-- ASCII lower-casing of a single character, as SQLite's `LIKE` and
CPython's `re.IGNORECASE` apply it: only `A`–`Z` are folded. -/
def lowerC (c : Char) : Char :=
  if 'A' ≤ c ∧ c ≤ 'Z' then Char.ofNat (c.toNat + 32) else c

/-- `hasPfx p s` holds when `p` is an initial segment of `s`. -/
def hasPfx (p s : Str) : Bool := decide (s.take p.length = p)

/-- `hasSfx p s` holds when `p` is a final segment of `s`. -/
def hasSfx (p s : Str) : Bool :=
  decide (p.length ≤ s.length ∧ s.drop (s.length - p.length) = p)

/-- `ciHasPfx p s`: `p` (already lower-case) is an initial segment of `s`
up to ASCII case, the way CPython's `_strptime` regex matches with
`re.IGNORECASE`. -/
def ciHasPfx (p s : Str) : Bool := decide ((s.take p.length).map lowerC = p)

/-- Literal substring test (used below both for the filter semantics and
for statements about error messages). -/
def containsSub (p : Str) : Str → Bool
  | [] => hasPfx p []
  | c :: t => hasPfx p (c :: t) || containsSub p t

/-- First marker of `QUERY` (`src/main.py` lines 18–24):
`event LIKE '%docs.google.com/feeds%'`. -/
def marker1 : Str := "docs.google.com/feeds".data

/-- Second marker of `QUERY`: `event LIKE '%docs.googleusercontent.com%'`. -/
def marker2 : Str := "docs.googleusercontent.com".data

/-- Third marker of `QUERY`: `event LIKE '%spreadsheets.google.com/feeds%'`. -/
def marker3 : Str := "spreadsheets.google.com/feeds".data

/-- The Record Filter: the `WHERE` clause of `QUERY`, executed by pandasql
through SQLite.  SQLite's `LIKE` is case-insensitive for the ASCII range
(the markers contain no `%`/`_` wildcards), so a row is selected exactly
when its ASCII-lower-cased event text contains one of the (lower-case)
markers as a literal substring. -/
def inScope (s : Str) : Bool :=
  containsSub marker1 (s.map lowerC) || containsSub marker2 (s.map lowerC) ||
    containsSub marker3 (s.map lowerC)

theorem hasPfx_eq {p s : Str} (h : hasPfx p s = true) :
    s = p ++ s.drop p.length := by
  have ht : s.take p.length = p := of_decide_eq_true h
  conv_lhs => rw [← List.take_append_drop p.length s, ht]

theorem hasSfx_eq {p s : Str} (h : hasSfx p s = true) :
    s = s.take (s.length - p.length) ++ p := by
  have ht : p.length ≤ s.length ∧ s.drop (s.length - p.length) = p :=
    of_decide_eq_true h
  conv_lhs => rw [← List.take_append_drop (s.length - p.length) s, ht.2]

theorem containsSub_iff (p : Str) : ∀ s : Str,
    containsSub p s = true ↔ ∃ pre post, s = pre ++ p ++ post := by
  intro s
  induction s with
  | nil =>
    simp only [containsSub, hasPfx]
    constructor
    · intro h
      have := of_decide_eq_true h
      refine ⟨[], [], ?_⟩
      simp only [List.take_nil] at this
      simp [← this]
    · rintro ⟨pre, post, hsplit⟩
      have h0 : (pre ++ p) ++ post = [] := by simpa using hsplit.symm
      have h2 := List.append_eq_nil.mp (List.append_eq_nil.mp h0).1
      rw [h2.2]
      decide
  | cons c t ih =>
    simp only [containsSub, Bool.or_eq_true]
    constructor
    · rintro (h | h)
      · exact ⟨[], (c :: t).drop p.length, by simpa using hasPfx_eq h⟩
      · obtain ⟨pre, post, hsplit⟩ := ih.mp h
        exact ⟨c :: pre, post, by simp [hsplit]⟩
    · rintro ⟨pre, post, hsplit⟩
      match pre, hsplit with
      | [], hsplit =>
        left
        simp only [List.nil_append] at hsplit
        have : (c :: t).take p.length = p := by
          rw [hsplit, List.take_left]
        exact decide_eq_true this
      | d :: pre', hsplit =>
        right
        refine ih.mpr ⟨pre', post, ?_⟩
        simpa using List.tail_eq_of_cons_eq hsplit

/-- Characterisation of a case-insensitive marker hit used to state the
filter claims: some infix of `s` lower-cases to `m`. -/
def CiHit (m s : Str) : Prop :=
  ∃ pre t post, s = pre ++ t ++ post ∧ t.map lowerC = m

theorem containsSub_map_iff (m s : Str) :
    containsSub m (s.map lowerC) = true ↔ CiHit m s := by
  rw [containsSub_iff]
  constructor
  · rintro ⟨pre, post, hsplit⟩
    refine ⟨s.take pre.length, (s.drop pre.length).take m.length,
      (s.drop pre.length).drop m.length, ?_, ?_⟩
    · simp [List.take_append_drop]
    · have h1 : (s.map lowerC).drop pre.length = m ++ post := by
        rw [hsplit, List.append_assoc, List.drop_left]
      have h2 : ((s.map lowerC).drop pre.length).take m.length = m := by
        rw [h1, List.take_left]
      rw [← List.map_drop, ← List.map_take] at h2
      exact h2
  · rintro ⟨pre, t, post, hsplit, hmap⟩
    exact ⟨pre.map lowerC, post.map lowerC, by simp [hsplit, hmap]⟩

/-! ### Whitespace: Python `\s` (ASCII), `str.split()` and `' '.join` -/

/-- Python 2 `\s` / `str.split()` whitespace class (ASCII). -/
def isWsC (c : Char) : Bool :=
  c = ' ' || c = '\t' || c = '\n' || c = '\x0b' || c = '\x0c' || c = '\r'

/-- Accumulator worker for `splitWs`; `acc` holds the current token
reversed. -/
def splitWsAcc (acc : Str) : Str → List Str
  | [] => if acc = [] then [] else [acc.reverse]
  | c :: s =>
    if isWsC c then
      if acc = [] then splitWsAcc [] s else acc.reverse :: splitWsAcc [] s
    else splitWsAcc (c :: acc) s

/-- Python's `str.split()` with no argument: split on runs of whitespace,
never producing empty tokens (`scope.split()` in `transform_row`). -/
def splitWs (s : Str) : List Str := splitWsAcc [] s

/-- Python's `' '.join(tokens)` (used to render an event back into the
fixed template for the round-trip property). -/
def joinSp : List Str → Str
  | [] => []
  | [t] => t
  | t :: t' :: ts => t ++ ' ' :: joinSp (t' :: ts)

theorem splitWsAcc_ne_nil (s : Str) :
    ∀ acc, ∀ t ∈ splitWsAcc acc s, t ≠ [] := by
  induction s with
  | nil =>
    intro acc t ht
    by_cases hacc : acc = []
    · simp [splitWsAcc, hacc] at ht
    · simp only [splitWsAcc, if_neg hacc, List.mem_singleton] at ht
      subst ht
      simpa using hacc
  | cons c s ih =>
    intro acc t ht
    by_cases hws : isWsC c = true
    · by_cases hacc : acc = []
      · rw [splitWsAcc, if_pos hws, if_pos hacc] at ht
        exact ih [] t ht
      · rw [splitWsAcc, if_pos hws, if_neg hacc] at ht
        rcases List.mem_cons.mp ht with h1 | h2
        · subst h1; simpa using hacc
        · exact ih [] t h2
    · rw [splitWsAcc, if_neg hws] at ht
      exact ih (c :: acc) t ht

theorem splitWs_ne_nil (s : Str) : ∀ t ∈ splitWs s, t ≠ [] :=
  splitWsAcc_ne_nil s []

theorem splitWsAcc_eq_nil_iff (s : Str) :
    ∀ acc, splitWsAcc acc s = [] ↔ (acc = [] ∧ s.all isWsC = true) := by
  induction s with
  | nil =>
    intro acc
    by_cases hacc : acc = [] <;> simp [splitWsAcc, hacc]
  | cons c s ih =>
    intro acc
    by_cases hws : isWsC c = true
    · by_cases hacc : acc = []
      · rw [splitWsAcc, if_pos hws, if_pos hacc]
        simp [ih, hacc, hws]
      · rw [splitWsAcc, if_pos hws, if_neg hacc]
        simp [hacc]
    · rw [splitWsAcc, if_neg hws]
      simp [ih, hws]

/-- `split()` yields no token exactly when the string is all whitespace. -/
theorem splitWs_eq_nil_iff (s : Str) :
    splitWs s = [] ↔ s.all isWsC = true := by
  rw [splitWs, splitWsAcc_eq_nil_iff]
  simp

/-! ### The Event Decomposer: `EVENT_PARSER.search` (`src/main.py` line 13)

`EVENT_PARSER = re.compile(r'^(.+) (revoked|authorized) access to (.+) for (.+) scopes$')`

Python `re` semantics embedded here:
  * `.` matches any character except `'\n'` (no DOTALL);
  * `^` anchors at the start (no MULTILINE, so `search` = match at 0);
  * `$` matches at the end of the string or just before one final `'\n'`;
  * all three `(.+)` groups are greedy with backtracking, so group 1 takes
    the largest prefix allowing the rest to match, then group 3 the largest
    middle, and group 4 is whatever sits between the last viable `" for "`
    and the final `" scopes"`.
-/

def mRev : Str := " revoked access to ".data

def mAuth : Str := " authorized access to ".data

def forLit : Str := " for ".data

def scopesLit : Str := " scopes".data

def wRev : Str := "revoked".data

def wAuth : Str := "authorized".data

/-- Groups `(g1, w, g3, g4)` of a successful `EVENT_PARSER` match. -/
abbrev RawGroups := Str × Str × Str × Str

/-- Viability of a split of `mid` at `j` into `g3 ++ " for " ++ g4`
with both groups non-empty. -/
def matchTail (mid : Str) (j : Nat) : Bool :=
  hasPfx forLit (mid.drop j) && decide (mid.take j ≠ []) &&
    decide (mid.drop (j + 5) ≠ [])

/-- Largest `j ≤ n` with `P j`, scanning downward — the greedy/backtracking
order of a `(.+)` group. -/
def findMaxIdx (P : Nat → Bool) : Nat → Option Nat
  | 0 => if P 0 then some 0 else none
  | n + 1 => if P (n + 1) then some (n + 1) else findMaxIdx P n

/-- Remainder after group 1 (length `i`) and the fixed marker. -/
def remOf (c : Str) (i : Nat) (marker : Str) : Str :=
  (c.drop i).drop marker.length

/-- The region between the marker and the final `" scopes"` literal, in
which groups 3 and 4 live. -/
def midOf (c : Str) (i : Nat) (marker : Str) : Str :=
  (remOf c i marker).take ((remOf c i marker).length - 7)

/-- Try to match the whole pattern with group 1 of length exactly `i` and
the given `(marker, word)` alternative (`" revoked access to "` or
`" authorized access to "`). -/
def matchWithWord (c : Str) (i : Nat) (marker w : Str) : Option RawGroups :=
  if c.take i = [] then none
  else if hasPfx marker (c.drop i) then
    if hasSfx scopesLit (remOf c i marker) then
      match findMaxIdx (matchTail (midOf c i marker)) (midOf c i marker).length with
      | some j =>
        some (c.take i, w, (midOf c i marker).take j, (midOf c i marker).drop (j + 5))
      | none => none
    else none
  else none

/-- Both alternation branches at a fixed group-1 length (the pattern tries
`revoked` first; the two markers can never match at the same spot). -/
def matchAt (c : Str) (i : Nat) : Option RawGroups :=
  match matchWithWord c i mRev wRev with
  | some r => some r
  | none => matchWithWord c i mAuth wAuth

/-- Greedy scan for group 1: largest viable length first. -/
def scanG1 (c : Str) : Nat → Option RawGroups
  | 0 => matchAt c 0
  | i + 1 =>
    match matchAt c (i + 1) with
    | some r => some r
    | none => scanG1 c i

/-- Match of the full pattern against a newline-free string. -/
def coreMatch (c : Str) : Option RawGroups := scanG1 c c.length

/-- `EVENT_PARSER.search(s)` group extraction.  A `'\n'` can only be
accepted as one trailing character (Python's `$`); `.` never matches it. -/
def decomposeRaw (s : Str) : Option RawGroups :=
  if s.elem '\n' then
    if s.getLast? = some '\n' then
      if s.dropLast.elem '\n' then none else coreMatch s.dropLast
    else none
  else coreMatch s

/-- The four semantic outputs of the Event Decomposer, exactly as
`transform_row` builds them: `user, action, app = m.groups()[0,1,2]` and
`scope = m.groups()[3].split()`. -/
structure EventFields where
  user : Str
  action : Str
  app : Str
  scope : List Str
deriving DecidableEq

/-- The Event Decomposer: regex match plus `scope.split()`. -/
def decompose (s : Str) : Option EventFields :=
  (decomposeRaw s).map fun r => ⟨r.1, r.2.1, r.2.2.1, splitWs r.2.2.2⟩

/-- Rendering an event's fields back into the fixed template
`"<actor> <action-word> access to <application> for <scopes> scopes"`
(scopes joined by single spaces). -/
def renderEvent (e : EventFields) : Str :=
  e.user ++ [' '] ++ e.action ++ " access to ".data ++ e.app ++ forLit ++
    joinSp e.scope ++ scopesLit

/-! ### Soundness of the match: a successful match reconstructs the input -/

theorem findMaxIdx_some {P : Nat → Bool} :
    ∀ {n j : Nat}, findMaxIdx P n = some j → P j = true := by
  intro n
  induction n with
  | zero =>
    intro j h
    rw [findMaxIdx] at h
    by_cases h0 : P 0 = true
    · rw [if_pos h0] at h
      cases h
      exact h0
    · rw [if_neg h0] at h
      cases h
  | succ n ih =>
    intro j h
    rw [findMaxIdx] at h
    by_cases h0 : P (n + 1) = true
    · rw [if_pos h0] at h
      cases h
      exact h0
    · rw [if_neg h0] at h
      exact ih h

theorem matchWithWord_eq {c : Str} {i : Nat} {marker w g1 w' g3 g4 : Str}
    (h : matchWithWord c i marker w = some (g1, w', g3, g4)) :
    w' = w ∧ c = g1 ++ marker ++ g3 ++ forLit ++ g4 ++ scopesLit ∧
      g1 ≠ [] ∧ g3 ≠ [] ∧ g4 ≠ [] := by
  unfold matchWithWord at h
  by_cases hne0 : c.take i = []
  · rw [if_pos hne0] at h
    cases h
  rw [if_neg hne0] at h
  by_cases hpfx : hasPfx marker (c.drop i) = true
  case neg =>
    rw [if_neg hpfx] at h
    cases h
  rw [if_pos hpfx] at h
  by_cases hsfx : hasSfx scopesLit (remOf c i marker) = true
  case neg =>
    rw [if_neg hsfx] at h
    cases h
  rw [if_pos hsfx] at h
  have hne : c.take i ≠ [] := hne0
  split at h
  next j hj =>
    have htail := findMaxIdx_some hj
    rw [matchTail, Bool.and_eq_true, Bool.and_eq_true] at htail
    obtain ⟨⟨hfor, hg3⟩, hg4⟩ := htail
    rw [Option.some.injEq, Prod.mk.injEq, Prod.mk.injEq, Prod.mk.injEq] at h
    obtain ⟨hg1eq, hweq, hg3eq, hg4eq⟩ := h
    subst hg1eq hweq hg3eq hg4eq
    refine ⟨rfl, ?_, hne, of_decide_eq_true hg3, of_decide_eq_true hg4⟩
    have e1 : c = c.take i ++ c.drop i := (List.take_append_drop i c).symm
    have e2 : c.drop i = marker ++ remOf c i marker := by
      rw [remOf]
      exact hasPfx_eq hpfx
    have e3 : remOf c i marker = midOf c i marker ++ scopesLit := by
      have h7 : scopesLit.length = 7 := rfl
      have := hasSfx_eq hsfx
      rw [h7] at this
      rw [midOf]
      exact this
    have e4 : midOf c i marker =
        (midOf c i marker).take j ++ (midOf c i marker).drop j :=
      (List.take_append_drop j (midOf c i marker)).symm
    have e5 : (midOf c i marker).drop j =
        forLit ++ (midOf c i marker).drop (j + 5) := by
      have h5 : forLit.length = 5 := rfl
      have := hasPfx_eq hfor
      rw [h5, List.drop_drop] at this
      exact this
    calc c = c.take i ++ c.drop i := e1
      _ = c.take i ++ (marker ++ (midOf c i marker ++ scopesLit)) := by
          rw [← e3, ← e2]
      _ = c.take i ++ (marker ++
          (((midOf c i marker).take j ++
            (forLit ++ (midOf c i marker).drop (j + 5))) ++ scopesLit)) := by
          rw [← e5, ← e4]
      _ = c.take i ++ marker ++ (midOf c i marker).take j ++ forLit ++
            (midOf c i marker).drop (j + 5) ++ scopesLit := by
          simp [List.append_assoc]
  next => cases h

theorem matchAt_eq {c : Str} {i : Nat} {g1 w g3 g4 : Str}
    (h : matchAt c i = some (g1, w, g3, g4)) :
    c = g1 ++ [' '] ++ w ++ " access to ".data ++ g3 ++ forLit ++ g4 ++ scopesLit ∧
      (w = wRev ∨ w = wAuth) ∧ g1 ≠ [] ∧ g3 ≠ [] ∧ g4 ≠ [] := by
  rw [matchAt] at h
  split at h
  next r hr =>
    cases h
    obtain ⟨hw, hc, hg1, hg3, hg4⟩ := matchWithWord_eq hr
    subst hw
    have hm : mRev = [' '] ++ wRev ++ " access to ".data := by decide
    rw [hm] at hc
    refine ⟨by simpa [List.append_assoc] using hc, Or.inl rfl, hg1, hg3, hg4⟩
  next hnone =>
    obtain ⟨hw, hc, hg1, hg3, hg4⟩ := matchWithWord_eq h
    subst hw
    have hm : mAuth = [' '] ++ wAuth ++ " access to ".data := by decide
    rw [hm] at hc
    refine ⟨by simpa [List.append_assoc] using hc, Or.inr rfl, hg1, hg3, hg4⟩

theorem scanG1_some {c : Str} :
    ∀ {n : Nat} {r : RawGroups}, scanG1 c n = some r → ∃ i, matchAt c i = some r := by
  intro n
  induction n with
  | zero =>
    intro r h
    exact ⟨0, h⟩
  | succ n ih =>
    intro r h
    rw [scanG1] at h
    split at h
    case h_1 r' hr' =>
      cases h
      exact ⟨n + 1, hr'⟩
    case h_2 => exact ih h

theorem coreMatch_some {c : Str} {r : RawGroups} (h : coreMatch c = some r) :
    ∃ i, matchAt c i = some r :=
  scanG1_some h

theorem decomposeRaw_core {s : Str} {r : RawGroups} (h : decomposeRaw s = some r) :
    ∃ c, c.elem '\n' = false ∧ coreMatch c = some r := by
  rw [decomposeRaw] at h
  split at h
  · split at h
    · split at h
      · cases h
      case isFalse hnl =>
        exact ⟨s.dropLast, Bool.not_eq_true _ ▸ eq_false_of_ne_true hnl, h⟩
    · cases h
  case isFalse hnl =>
    exact ⟨s, eq_false_of_ne_true hnl, h⟩

/-- A successful `EVENT_PARSER` match reconstructs the matched (newline-free)
text from its groups, and the action word is one of the two literals. -/
theorem decomposeRaw_sound {s : Str} {g1 w g3 g4 : Str}
    (h : decomposeRaw s = some (g1, w, g3, g4)) :
    ∃ c, c.elem '\n' = false ∧ coreMatch c = some (g1, w, g3, g4) ∧
      c = g1 ++ [' '] ++ w ++ " access to ".data ++ g3 ++ forLit ++ g4 ++ scopesLit ∧
      (w = wRev ∨ w = wAuth) ∧ g1 ≠ [] ∧ g3 ≠ [] ∧ g4 ≠ [] := by
  obtain ⟨c, hnl, hcore⟩ := decomposeRaw_core h
  obtain ⟨i, hi⟩ := coreMatch_some hcore
  obtain ⟨hc, hw, hg1, hg3, hg4⟩ := matchAt_eq hi
  exact ⟨c, hnl, hcore, hc, hw, hg1, hg3, hg4⟩

/-! ### The Timestamp Parser: `parse_date` (`src/main.py` lines 27–34)

`parse_date` collapses whitespace runs with `re.sub(r'\s+', ' ', s)` and
calls `datetime.datetime.strptime(s, '%B %d %Y %I:%M:%S %p %Z')`.

The model follows CPython's `_strptime` for this fixed format string:
  * matching is case-insensitive (`_strptime` compiles with `IGNORECASE`);
  * `%B` is a full English month name (C locale);
  * `%d`, `%I`, `%M`, `%S` accept the digit runs of the regexes
    `3[01]|[12]\d|0[1-9]|[1-9]`, `1[0-2]|0[1-9]|[1-9]`, `[0-5]\d|\d` and
    `6[0-1]|[0-5]\d|\d`; `%Y` is exactly four digits;
  * `%p` is `AM`/`PM`;
  * `%Z` accepts `UTC`, `GMT` or one of the ambient `time.tzname` values —
    the ambient pair is environment state, so it is an explicit argument
    `tzn` here (lower-case names); the matched zone is then DISCARDED:
    Python 2 `strptime` returns a naive datetime;
  * a match that leaves unconsumed text raises
    `ValueError('unconverted data remains: ...')`, a failed match raises
    `ValueError("time data %r does not match format %r")`, and the
    `datetime()` constructor then validates calendar ranges
    (`"day is out of range for month"` etc.).
-/

/-- Result of a fallible step, carrying the Python exception message. -/
inductive Res (α : Type) where
  | ok : α → Res α
  | err : Str → Res α
deriving DecidableEq

/-- Naive datetime, as returned by Python 2 `datetime.strptime` (which
never attaches a timezone). -/
structure Dtm where
  y : Nat
  mo : Nat
  d : Nat
  h : Nat
  mi : Nat
  s : Nat
deriving DecidableEq

/-- Chronological comparison of naive datetimes (what `DataFrame.sort`
compares). -/
def dtmLe (a b : Dtm) : Bool :=
  if a.y ≠ b.y then decide (a.y < b.y)
  else if a.mo ≠ b.mo then decide (a.mo < b.mo)
  else if a.d ≠ b.d then decide (a.d < b.d)
  else if a.h ≠ b.h then decide (a.h < b.h)
  else if a.mi ≠ b.mi then decide (a.mi < b.mi)
  else decide (a.s ≤ b.s)

/-- `re.sub(r'\s+', ' ', s)`: every maximal whitespace run becomes one
space.  `inRun` records whether the previous character belonged to a run
already rewritten. -/
def collapseAux : Bool → Str → Str
  | _, [] => []
  | inRun, c :: s =>
    if isWsC c then
      if inRun then collapseAux true s else ' ' :: collapseAux true s
    else c :: collapseAux false s

def collapseWs (s : Str) : Str := collapseAux false s

def isDigitC (c : Char) : Bool := decide ('0' ≤ c ∧ c ≤ '9')

def natOfDigits (ds : Str) : Nat := ds.foldl (fun n c => 10 * n + (c.toNat - 48)) 0

/-- A numeric directive: take the maximal digit run and accept it when its
length and value lie in the directive's regex language. -/
def parseNumField (minLen maxLen lo hi : Nat) (s : Str) : Option (Nat × Str) :=
  if minLen ≤ (s.takeWhile isDigitC).length ∧ (s.takeWhile isDigitC).length ≤ maxLen ∧
      lo ≤ natOfDigits (s.takeWhile isDigitC) ∧ natOfDigits (s.takeWhile isDigitC) ≤ hi
  then some (natOfDigits (s.takeWhile isDigitC), s.dropWhile isDigitC)
  else none

/-- One literal character of the format. -/
def litCh (c : Char) : Str → Option Str
  | [] => none
  | d :: t => if d = c then some t else none

def monthNames : List Str :=
  ["january".data, "february".data, "march".data, "april".data, "may".data,
   "june".data, "july".data, "august".data, "september".data, "october".data,
   "november".data, "december".data]

def findMonthAux : Nat → List Str → Str → Option (Nat × Str)
  | _, [], _ => none
  | i, n :: ns, s =>
    if ciHasPfx n s then some (i, s.drop n.length) else findMonthAux (i + 1) ns s

/-- `%B`: case-insensitive full month name (no name is a prefix of
another, so first-match is unambiguous). -/
def findMonth (s : Str) : Option (Nat × Str) := findMonthAux 1 monthNames s

/-- `%p`: `AM` or `PM`, case-insensitively; returns `true` for PM. -/
def findAmPm (s : Str) : Option (Bool × Str) :=
  if ciHasPfx "pm".data s then some (true, s.drop 2)
  else if ciHasPfx "am".data s then some (false, s.drop 2)
  else none

/-- `%Z`: the accepted names, longest-first (CPython sorts the alternation
by length); returns the longest name matching a prefix of `s`. -/
def bestTz (names : List Str) (s : Str) : Option Str :=
  names.foldl
    (fun best n =>
      if ciHasPfx n s then
        match best with
        | none => some n
        | some b => if b.length < n.length then some n else some b
      else best)
    none

def isLeapYear (y : Nat) : Bool :=
  (y % 4 = 0 && y % 100 ≠ 0) || y % 400 = 0

def daysInMonth (y mo : Nat) : Nat :=
  if mo = 2 then (if isLeapYear y then 29 else 28)
  else if mo = 4 ∨ mo = 6 ∨ mo = 9 ∨ mo = 11 then 30
  else 31

def mismatchMsg (s : Str) : Str :=
  "time data \x27".data ++ s ++
    "\x27 does not match format \x27%B %d %Y %I:%M:%S %p %Z\x27".data

/-- `datetime.datetime(...)` constructor validation, in CPython's order. -/
def mkDatetime (y mo d h mi sec : Nat) : Res Dtm :=
  if y < 1 then .err "year is out of range".data
  else if d > daysInMonth y mo then .err "day is out of range for month".data
  else if sec > 59 then .err "second must be in 0..59".data
  else .ok ⟨y, mo, d, h, mi, sec⟩

/-- `datetime.strptime(s, '%B %d %Y %I:%M:%S %p %Z')` on an
already-whitespace-collapsed string, with ambient `time.tzname` values
`tzn` (lower-cased). -/
def strptimeFmt (tzn : List Str) (s : Str) : Res Dtm :=
  match findMonth s with
  | none => .err (mismatchMsg s)
  | some (mo, r1) =>
  match litCh ' ' r1 with
  | none => .err (mismatchMsg s)
  | some r2 =>
  match parseNumField 1 2 1 31 r2 with
  | none => .err (mismatchMsg s)
  | some (d, r3) =>
  match litCh ' ' r3 with
  | none => .err (mismatchMsg s)
  | some r4 =>
  match parseNumField 4 4 0 9999 r4 with
  | none => .err (mismatchMsg s)
  | some (y, r5) =>
  match litCh ' ' r5 with
  | none => .err (mismatchMsg s)
  | some r6 =>
  match parseNumField 1 2 1 12 r6 with
  | none => .err (mismatchMsg s)
  | some (h, r7) =>
  match litCh ':' r7 with
  | none => .err (mismatchMsg s)
  | some r8 =>
  match parseNumField 1 2 0 59 r8 with
  | none => .err (mismatchMsg s)
  | some (mi, r9) =>
  match litCh ':' r9 with
  | none => .err (mismatchMsg s)
  | some r10 =>
  match parseNumField 1 2 0 61 r10 with
  | none => .err (mismatchMsg s)
  | some (sec, r11) =>
  match litCh ' ' r11 with
  | none => .err (mismatchMsg s)
  | some r12 =>
  match findAmPm r12 with
  | none => .err (mismatchMsg s)
  | some (pm, r13) =>
  match litCh ' ' r13 with
  | none => .err (mismatchMsg s)
  | some r14 =>
  match bestTz ("utc".data :: "gmt".data :: tzn) r14 with
  | none => .err (mismatchMsg s)
  | some n =>
    if r14.drop n.length ≠ [] then
      .err ("unconverted data remains: ".data ++ r14.drop n.length)
    else
      mkDatetime y mo d
        (if pm then (if h = 12 then 12 else h + 12)
         else (if h = 12 then 0 else h)) mi sec

/-- `parse_date` (`src/main.py` line 27): collapse whitespace, then
`strptime` with the log's fixed format. -/
def parse_date (tzn : List Str) (s : Str) : Res Dtm :=
  strptimeFmt tzn (collapseWs s)

theorem collapseAux_idem (s : Str) :
    collapseAux false (collapseAux true s) = collapseAux true s ∧
    collapseAux false (collapseAux false s) = collapseAux false s ∧
    collapseAux true (collapseAux true s) = collapseAux true s := by
  induction s with
  | nil => exact ⟨rfl, rfl, rfl⟩
  | cons c t ih =>
    obtain ⟨ihA, ihB, ihC⟩ := ih
    by_cases hws : isWsC c = true
    · refine ⟨?_, ?_, ?_⟩
      · rw [collapseAux, if_pos hws, if_pos rfl, ihA]
      · rw [collapseAux, if_pos hws, if_neg (by simp)]
        rw [collapseAux, if_pos (by decide), if_neg (by simp), ihC]
      · rw [collapseAux, if_pos hws, if_pos rfl, ihC]
    · refine ⟨?_, ?_, ?_⟩
      · rw [collapseAux, if_neg hws]
        rw [collapseAux, if_neg hws, ihB]
      · rw [collapseAux, if_neg hws]
        rw [collapseAux, if_neg hws, ihB]
      · rw [collapseAux, if_neg hws]
        rw [collapseAux, if_neg hws, ihB]

theorem collapseWs_idem (s : Str) : collapseWs (collapseWs s) = collapseWs s :=
  (collapseAux_idem s).2.1

/-! ### The Pipeline Orchestrator: `main` (`src/main.py` lines 62–91)

`main` does
`pandasql.sqldf(QUERY, locals()).apply(transform_row, axis=1).sort('date').groupby('user')`
and then prints.  The embedding:

  * the loader's contract (§6 of the spec) supplies `(event, date)` rows,
    already stripped of the ignored trailing CSV field;
  * `sqldf(QUERY, ...)` keeps the in-scope rows in their original order —
    `filterStep`;
  * `.apply(transform_row, axis=1)` maps `transform_row` over the rows in
    order; a Python exception from any row aborts immediately —
    `transformAll` (first error wins);
  * `.sort('date')` sorts ascending by `date`.  The call uses pandas'
    default `kind='quicksort'`, which is documented as NOT stable, so the
    sort step is modelled relationally: `IsSortStep evs l'` says `l'` is
    some date-ascending permutation of `evs`, which is everything the
    source guarantees about tie order;
  * `.groupby('user')` yields one group per distinct user (pandas sorts
    the group keys; rows keep their order inside each group) —
    `groupByUser`;
  * an uncaught exception reaches `sys.exit` as a traceback: process exit
    status 1; otherwise `main` returns 0.
-/

/-- One normalized record (one row of the transformed DataFrame): the
spec's `AuthorizationEvent`, with the action kept as the matched word
(`"authorized"`/`"revoked"`) exactly as the code does. -/
structure AuthEvent where
  date : Dtm
  user : Str
  action : Str
  app : Str
  scope : List Str
deriving DecidableEq

/-- `transform_row` (`src/main.py` lines 37–59): regex-decompose the event
text (raising `RuntimeError('Event does not follow expected format: %s')`
on failure), then parse the date. -/
def transform_row (tzn : List Str) (row : Str × Str) : Res AuthEvent :=
  match decompose row.1 with
  | none => .err ("Event does not follow expected format: ".data ++ row.1)
  | some f =>
    match parse_date tzn row.2 with
    | .err m => .err m
    | .ok d => .ok ⟨d, f.user, f.action, f.app, f.scope⟩

/-- `.apply(transform_row, axis=1)`: row order preserved, first raised
exception aborts the whole computation. -/
def transformAll (tzn : List Str) : List (Str × Str) → Res (List AuthEvent)
  | [] => .ok []
  | r :: rs =>
    match transform_row tzn r with
    | .err m => .err m
    | .ok e =>
      match transformAll tzn rs with
      | .err m => .err m
      | .ok es => .ok (e :: es)

/-- The Record Filter applied to the raw rows (the `WHERE` clause of
`QUERY`), preserving original row order. -/
def filterStep (rows : List (Str × Str)) : List (Str × Str) :=
  rows.filter (fun r => inScope r.1)

/-- Filter then decompose+parse: the pipeline up to (and excluding) the
sort. -/
def pipelineToEvents (tzn : List Str) (rows : List (Str × Str)) :
    Res (List AuthEvent) :=
  transformAll tzn (filterStep rows)

/-- Date-ascending check on adjacent pairs. -/
def sortedByDate : List AuthEvent → Bool
  | [] => true
  | [_] => true
  | a :: b :: t => dtmLe a.date b.date && sortedByDate (b :: t)

/-- The `.sort('date')` step, relationally: `l'` is a date-ascending
permutation of `evs`.  pandas' default `kind='quicksort'` guarantees
nothing about the relative order of equal dates, so no tie-break policy is
part of the model. -/
def IsSortStep (evs l' : List AuthEvent) : Prop :=
  List.Perm l' evs ∧ sortedByDate l' = true

/-- Byte-wise lexicographic comparison of Python 2 strings (how pandas
sorts the `groupby` keys). -/
def strLe : Str → Str → Bool
  | [], _ => true
  | _ :: _, [] => false
  | a :: as, b :: bs => if a = b then strLe as bs else decide (a < b)

def insertS (u : Str) : List Str → List Str
  | [] => [u]
  | v :: vs => if strLe u v then u :: v :: vs else v :: insertS u vs

/-- Insertion sort on the group keys (pandas `groupby(sort=True)`
enumerates groups in sorted key order). -/
def insSort : List Str → List Str
  | [] => []
  | u :: us => insertS u (insSort us)

/-- `.groupby('user')`: one group per distinct user, keys sorted, rows
keeping their (already date-sorted) order inside each group. -/
def groupByUser (l : List AuthEvent) : List (Str × List AuthEvent) :=
  (insSort ((l.map (fun e => e.user)).dedup)).map
    (fun u => (u, l.filter (fun e => decide (e.user = u))))

/-- A complete, successful run of `main`'s pipeline: filtering and
transformation succeed with a non-empty record set, some date-ascending
permutation is taken by the sort, and the report is its grouping.  (On an
empty record set the real script dies in `.sort('date')` before grouping,
so completed runs have `evs ≠ []`.) -/
def PipelineRun (tzn : List Str) (rows : List (Str × Str))
    (rep : List (Str × List AuthEvent)) : Prop :=
  ∃ evs l', pipelineToEvents tzn rows = .ok evs ∧ evs ≠ [] ∧
    IsSortStep evs l' ∧ rep = groupByUser l'

/-- Process exit status: 0 on success, 1 when the uncaught exception kills
the interpreter. -/
def runExit (tzn : List Str) (rows : List (Str × Str)) : Nat :=
  match pipelineToEvents tzn rows with
  | .ok _ => 0
  | .err _ => 1

theorem insertS_perm (u : Str) : ∀ l : List Str, List.Perm (insertS u l) (u :: l) := by
  intro l
  induction l with
  | nil => exact List.Perm.refl _
  | cons v vs ih =>
    rw [insertS]
    by_cases hle : strLe u v = true
    · rw [if_pos hle]
    · rw [if_neg hle]
      exact (ih.cons v).trans (List.Perm.swap u v vs)

theorem insSort_perm : ∀ l : List Str, List.Perm (insSort l) l := by
  intro l
  induction l with
  | nil => exact List.Perm.refl _
  | cons u us ih =>
    rw [insSort]
    exact (insertS_perm u (insSort us)).trans (ih.cons u)

theorem perm_pair {α : Type} [DecidableEq α] {a b : α} {l : List α}
    (h : List.Perm l [a, b]) : l = [a, b] ∨ l = [b, a] := by
  have hlen := h.length_eq
  match l, hlen with
  | [x, y], _ =>
    by_cases hx : x = a
    · subst hx
      left
      rw [List.perm_singleton.mp h.cons_inv]
    · have hxm : x ∈ [a, b] := h.subset (by simp)
      have hxb : x = b := by
        rcases List.mem_cons.mp hxm with h1 | h2
        · exact absurd h1 hx
        · simpa using h2
      subst hxb
      right
      have h2 : List.Perm [x, y] [x, a] := h.trans (List.Perm.swap x a [])
      rw [List.perm_singleton.mp h2.cons_inv]

theorem transformAll_append_err (tzn : List Str) (row : Str × Str)
    (rows : List (Str × Str)) (m : Str) :
    ∀ pre : List (Str × Str), (∀ x ∈ pre, ∃ e, transform_row tzn x = .ok e) →
      transform_row tzn row = .err m →
      transformAll tzn (pre ++ row :: rows) = .err m := by
  intro pre
  induction pre with
  | nil =>
    intro _ herr
    rw [List.nil_append, transformAll, herr]
  | cons p ps ih =>
    intro hok herr
    obtain ⟨e, he⟩ := hok p (by simp)
    rw [List.cons_append, transformAll, he,
      ih (fun x hx => hok x (List.mem_cons_of_mem p hx)) herr]

/-- Partitioning: concatenating the per-key filters over a duplicate-free,
covering key list permutes the original list. -/
theorem join_filter_perm :
    ∀ (keys : List Str) (l : List AuthEvent), keys.Nodup →
      (∀ e ∈ l, e.user ∈ keys) →
      List.Perm ((keys.map (fun u => l.filter (fun e => decide (e.user = u)))).flatten) l := by
  intro keys
  induction keys with
  | nil =>
    intro l _ hcov
    match l with
    | [] => simp
    | e :: es => exact absurd (hcov e (by simp)) (by simp)
  | cons u ks ih =>
    intro l hnd hcov
    obtain ⟨hu, hndks⟩ := List.nodup_cons.mp hnd
    simp only [List.map_cons, List.flatten_cons]
    have hmapeq : ks.map (fun v => l.filter (fun e => decide (e.user = v))) =
        ks.map (fun v =>
          (l.filter (fun e => !decide (e.user = u))).filter
            (fun e => decide (e.user = v))) := by
      apply List.map_congr_left
      intro v hv
      have hvne : v ≠ u := fun h => hu (h ▸ hv)
      rw [List.filter_filter]
      apply List.filter_congr
      intro e _
      by_cases he : e.user = v
      · have heu : e.user ≠ u := by rw [he]; exact hvne
        simp [he, heu, hvne]
      · simp [he]
    have hcov2 : ∀ e ∈ l.filter (fun e => !decide (e.user = u)), e.user ∈ ks := by
      intro e he
      obtain ⟨hel, hb⟩ := List.mem_filter.mp he
      have hne : e.user ≠ u := by simpa using hb
      rcases List.mem_cons.mp (hcov e hel) with h1 | h2
      · exact absurd h1 hne
      · exact h2
    have h1 := ih (l.filter (fun e => !decide (e.user = u))) hndks hcov2
    rw [← hmapeq] at h1
    exact (h1.append_left (l.filter (fun e => decide (e.user = u)))).trans
      (List.filter_append_perm (fun e => decide (e.user = u)) l)

/-! ### The spec's end-to-end example corpus (§8) -/

/-- Ambient `time.tzname` values (lower-cased) of a US/Pacific host — the
only environments in which the log's `PST` timestamps parse at all, and
the environment the spec's examples presuppose. -/
def pacTzn : List Str := ["pst".data, "pdt".data]

def exRow1 : Str × Str :=
  ("alice@example.com authorized access to docs.google.com/feeds for read write scopes".data,
   "January 5 2021 3:04:05 PM PST".data)

def exRow2 : Str × Str :=
  ("alice@example.com revoked access to docs.google.com/feeds for read write scopes".data,
   "January 6 2021 9:00:00 AM PST".data)

def exRow3 : Str × Str :=
  ("bob@example.com authorized access to unrelated-app for metadata scopes".data,
   "January 4 2021 1:00:00 PM PST".data)

def exRows : List (Str × Str) := [exRow1, exRow2, exRow3]

def exEv1 : AuthEvent :=
  ⟨⟨2021, 1, 5, 15, 4, 5⟩, "alice@example.com".data, wAuth,
   "docs.google.com/feeds".data, ["read".data, "write".data]⟩

def exEv2 : AuthEvent :=
  ⟨⟨2021, 1, 6, 9, 0, 0⟩, "alice@example.com".data, wRev,
   "docs.google.com/feeds".data, ["read".data, "write".data]⟩

def exReport : List (Str × List AuthEvent) :=
  [("alice@example.com".data, [exEv1, exEv2])]

/-! ### The claims -/

/-- Claim C1: on the spec's three-row example, the filter keeps exactly
rows 1 and 2 (row 3 has no marker), the transformation yields the
AUTHORIZE event of 2021-01-05 15:04:05 and the REVOKE event of
2021-01-06 09:00:00, and every completed pipeline run produces exactly one
report: actor `alice@example.com` with those two events in timestamp
order, AUTHORIZE then REVOKE. -/
theorem c1_end_to_end :
    filterStep exRows = [exRow1, exRow2] ∧
    pipelineToEvents pacTzn exRows = .ok [exEv1, exEv2] ∧
    ∀ rep, PipelineRun pacTzn exRows rep → rep = exReport := by
  refine ⟨by decide, by decide, ?_⟩
  rintro rep ⟨evs, l', hok, hne, ⟨hperm, hsort⟩, hrep⟩
  have h2 : pipelineToEvents pacTzn exRows = .ok [exEv1, exEv2] := by decide
  rw [hok] at h2
  injection h2 with hevs
  subst hevs
  rcases perm_pair hperm with h1 | h1
  · rw [hrep, h1]
    decide
  · rw [h1] at hsort
    exact absurd hsort (by decide)

/-- Witness for C1: the expected report is a completed run's report. -/
theorem c1_end_to_end_witness : groupByUser [exEv1, exEv2] = exReport :=
  c1_end_to_end.2.2 (groupByUser [exEv1, exEv2])
    ⟨[exEv1, exEv2], [exEv1, exEv2], by decide, by decide,
     ⟨by decide, by decide⟩, rfl⟩

/-- Claim C3 counterexample: the spec's own §8 string is selected by the
Record Filter (it contains a marker) but the Event Decomposer fails on it,
so filter-selected rows are NOT always decomposable. -/
theorem c3_filter_not_conservative_cex :
    inScope "alice did something odd to docs.google.com/feeds".data = true ∧
    decompose "alice did something odd to docs.google.com/feeds".data = none := by
  decide

/-- Claim C3 (amended): on the spec's test corpus (the §8 end-to-end
rows), every filter-selected event text decomposes successfully, and the
out-of-scope row is not selected. -/
theorem c3_corpus_conservative :
    inScope exRow1.1 = true ∧ (decompose exRow1.1).isSome = true ∧
    inScope exRow2.1 = true ∧ (decompose exRow2.1).isSome = true ∧
    inScope exRow3.1 = false := by
  decide

/-- Claim C4 counterexample: an event whose matched scopes text carries a
tab.  Rendering joins the scope tokens with single spaces, which creates a
new `" for "` occurrence, and the greedy re-match shifts the
application/scopes boundary: the round trip changes `app` from `"c"` to
`"c for x"`. -/
theorem c4_roundtrip_cex :
    decompose "u authorized access to c for x\tfor\ty scopes".data =
      some ⟨"u".data, wAuth, "c".data, ["x".data, "for".data, "y".data]⟩ ∧
    decompose (renderEvent
        ⟨"u".data, wAuth, "c".data, ["x".data, "for".data, "y".data]⟩) =
      some ⟨"u".data, wAuth, "c for x".data, ["y".data]⟩ ∧
    decompose (renderEvent
        ⟨"u".data, wAuth, "c".data, ["x".data, "for".data, "y".data]⟩) ≠
      some ⟨"u".data, wAuth, "c".data, ["x".data, "for".data, "y".data]⟩ := by
  decide

/-- Claim C4 (amended): for any event the decomposer produced whose
single-space join of scopes equals the originally matched scopes substring
(i.e. the scopes text was already in rendered form), re-running the
decomposer on the rendered template reproduces actor, action, application
and scopes exactly — the rendered template is the matched text itself. -/
theorem c4_roundtrip_canonical (s g1 w g3 g4 : Str)
    (h : decomposeRaw s = some (g1, w, g3, g4))
    (hcanon : joinSp (splitWs g4) = g4) :
    decompose (renderEvent ⟨g1, w, g3, splitWs g4⟩) =
      some ⟨g1, w, g3, splitWs g4⟩ := by
  obtain ⟨c, hnl, hcore, hc, hw, hg1, hg3, hg4⟩ := decomposeRaw_sound h
  have hrender : renderEvent ⟨g1, w, g3, splitWs g4⟩ = c := by
    rw [renderEvent]
    dsimp only
    rw [hcanon]
    exact hc.symm
  have hdc : decomposeRaw c = some (g1, w, g3, g4) := by
    rw [decomposeRaw, if_neg (by rw [hnl]; exact Bool.false_ne_true)]
    exact hcore
  rw [decompose, hrender, hdc]
  rfl

/-- Witness for C4 (amended) at the spec's example row. -/
theorem c4_roundtrip_witness :
    decompose (renderEvent ⟨"alice@example.com".data, wAuth,
        "docs.google.com/feeds".data, splitWs "read write".data⟩) =
      some ⟨"alice@example.com".data, wAuth, "docs.google.com/feeds".data,
        splitWs "read write".data⟩ :=
  c4_roundtrip_canonical exRow1.1 "alice@example.com".data wAuth
    "docs.google.com/feeds".data "read write".data (by decide) (by decide)

/-- Claim C5 counterexample: a row whose event text contains no marker as
a literal (case-sensitive) substring is nevertheless selected, because
SQLite's `LIKE` is ASCII-case-insensitive — the filter is not the literal
substring predicate the claim states. -/
theorem c5_literal_substring_cex :
    inScope "DOCS.GOOGLE.COM/FEEDS".data = true ∧
    containsSub marker1 "DOCS.GOOGLE.COM/FEEDS".data = false ∧
    containsSub marker2 "DOCS.GOOGLE.COM/FEEDS".data = false ∧
    containsSub marker3 "DOCS.GOOGLE.COM/FEEDS".data = false := by
  decide

/-- Claim C5 (amended): the Record Filter is the total predicate that
selects exactly the strings containing one of the three markers as a
substring up to ASCII case (`LIKE` semantics); a non-match is the ordinary
value `false`, never an error. -/
theorem c5_in_scope_iff (s : Str) :
    inScope s = true ↔ (CiHit marker1 s ∨ CiHit marker2 s ∨ CiHit marker3 s) := by
  rw [inScope]
  simp only [Bool.or_eq_true]
  rw [containsSub_map_iff, containsSub_map_iff, containsSub_map_iff]
  exact or_assoc

/-- Witness for C5 (amended): a concrete in-scope string through the
characterisation. -/
theorem c5_in_scope_iff_witness :
    inScope "x docs.googleusercontent.com".data = true :=
  (c5_in_scope_iff _).mpr
    (Or.inr (Or.inl ⟨"x ".data, "docs.googleusercontent.com".data, [],
      by decide, by decide⟩))

/-- Claim C6 counterexample: `"February 30 2021 3:04:05 PM UTC"` matches
the claimed textual shape yet `parse_date` fails (the `datetime`
constructor rejects the calendar-invalid day); and the named timezone is
not reflected in the result at all — `PST` and `EST` inputs parse to the
same naive instant. -/
theorem c6_parse_timestamp_cex :
    parse_date [] "February 30 2021 3:04:05 PM UTC".data =
      .err "day is out of range for month".data ∧
    parse_date ["pst".data, "est".data] "January 5 2021 3:04:05 PM PST".data =
      parse_date ["pst".data, "est".data] "January 5 2021 3:04:05 PM EST".data ∧
    parse_date ["pst".data, "est".data] "January 5 2021 3:04:05 PM PST".data =
      .ok ⟨2021, 1, 5, 15, 4, 5⟩ := by
  decide

/-- Claim C6 (amended): `parse_date` is whitespace-insensitive — any input
parses exactly as its whitespace-collapsed form — and on the spec's
example (under a Pacific ambient zone) the irregular-whitespace and
single-spaced texts both yield the naive instant 2021-01-05 15:04:05; the
matched zone abbreviation is discarded, and shape-matching but
calendar-invalid fields fail. -/
theorem c6_parse_props :
    (∀ (tzn : List Str) (s : Str), parse_date tzn s = parse_date tzn (collapseWs s)) ∧
    parse_date pacTzn "January  5   2021 3:04:05 PM PST".data =
      .ok ⟨2021, 1, 5, 15, 4, 5⟩ ∧
    parse_date pacTzn "January 5 2021 3:04:05 PM PST".data =
      .ok ⟨2021, 1, 5, 15, 4, 5⟩ := by
  refine ⟨?_, by decide, by decide⟩
  intro tzn s
  rw [parse_date, parse_date, collapseWs_idem]

/-- Witness for C6 (amended) at a concrete tab-ridden input. -/
theorem c6_parse_props_witness :
    parse_date pacTzn "January\t5 2021 3:04:05 PM PST".data =
      parse_date pacTzn (collapseWs "January\t5 2021 3:04:05 PM PST".data) :=
  c6_parse_props.1 pacTzn "January\t5 2021 3:04:05 PM PST".data

/-- Claim C7 counterexample: an in-scope row whose date is calendar-invalid
aborts the run, but the surfaced message
(`day is out of range for month`) does not contain the offending raw field
value. -/
theorem c7_message_missing_field_cex :
    pipelineToEvents pacTzn
        [(exRow1.1, "February 30 2021 3:04:05 PM PST".data)] =
      .err "day is out of range for month".data ∧
    containsSub "February 30 2021 3:04:05 PM PST".data
      "day is out of range for month".data = false := by
  decide

/-- Claim C7 (amended): any decomposition or timestamp failure on an
in-scope row aborts the run before the sort/group steps — the pipeline
yields an error, no completed run (hence no report, partial or otherwise)
exists, and the process exit status is 1; the first failing row's message
wins; decomposition failures embed the offending event text in the
message (timestamp failures do not always embed the date text). -/
theorem c7_fail_fast :
    (∀ (tzn : List Str) (rows : List (Str × Str)) (m : Str),
       pipelineToEvents tzn rows = .err m →
       runExit tzn rows = 1 ∧ ∀ rep, ¬ PipelineRun tzn rows rep) ∧
    (∀ (tzn : List Str) (ev dt m : Str),
       transform_row tzn (ev, dt) = .err m → decompose ev = none →
       m = "Event does not follow expected format: ".data ++ ev) ∧
    (∀ (tzn : List Str) (row : Str × Str) (rows : List (Str × Str)) (m : Str)
       (pre : List (Str × Str)),
       (∀ x ∈ pre, ∃ e, transform_row tzn x = .ok e) →
       transform_row tzn row = .err m →
       transformAll tzn (pre ++ row :: rows) = .err m) := by
  refine ⟨?_, ?_, ?_⟩
  · intro tzn rows m herr
    refine ⟨by rw [runExit, herr], ?_⟩
    rintro rep ⟨evs, l', hok, _, _, _⟩
    rw [herr] at hok
    cases hok
  · intro tzn ev dt m htr hdec
    have h2 : transform_row tzn (ev, dt) =
        .err ("Event does not follow expected format: ".data ++ ev) := by
      simp [transform_row, hdec]
    rw [h2] at htr
    injection htr with h
    exact h.symm
  · intro tzn row rows m pre hok herr
    exact transformAll_append_err tzn row rows m pre hok herr

/-- Witness for C7 (amended) on a concrete in-scope but undecomposable
row. -/
theorem c7_fail_fast_witness :
    runExit pacTzn
        [("x docs.google.com/feeds".data, "January 5 2021 3:04:05 PM PST".data)] = 1 ∧
    ¬ PipelineRun pacTzn
        [("x docs.google.com/feeds".data, "January 5 2021 3:04:05 PM PST".data)]
        exReport := by
  have h := c7_fail_fast.1 pacTzn
    [("x docs.google.com/feeds".data, "January 5 2021 3:04:05 PM PST".data)]
    ("Event does not follow expected format: x docs.google.com/feeds".data)
    (by decide)
  exact ⟨h.1, h.2 exReport⟩

/-- Claim C8 counterexample: the decomposer succeeds with an EMPTY scopes
sequence when the matched scopes substring is all whitespace (here a tab):
`split()` of whitespace-only text yields no tokens. -/
theorem c8_empty_scopes_cex :
    decompose "u authorized access to a for \t scopes".data =
      some ⟨"u".data, wAuth, "a".data, []⟩ := by
  decide

/-- Claim C8 (amended): on every decomposer success, actor and application
are non-empty, the action word is `authorized` or `revoked`, and the
scopes sequence never contains an empty token; it is empty exactly when
the matched scopes substring is all whitespace (so it can be empty, contra
the original claim). -/
theorem c8_field_shape (s g1 w g3 g4 : Str)
    (h : decomposeRaw s = some (g1, w, g3, g4)) :
    decompose s = some ⟨g1, w, g3, splitWs g4⟩ ∧
    g1 ≠ [] ∧ g3 ≠ [] ∧ (w = wAuth ∨ w = wRev) ∧
    (∀ t ∈ splitWs g4, t ≠ []) ∧
    (splitWs g4 = [] ↔ g4.all isWsC = true) := by
  obtain ⟨c, hnl, hcore, hc, hw, hg1, hg3, hg4⟩ := decomposeRaw_sound h
  refine ⟨by rw [decompose, h]; rfl, hg1, hg3, ?_, splitWs_ne_nil g4,
    splitWs_eq_nil_iff g4⟩
  rcases hw with h1 | h1
  · exact Or.inr h1
  · exact Or.inl h1

/-- Witness for C8 (amended) at the spec's example row. -/
theorem c8_field_shape_witness :
    decompose exRow1.1 = some ⟨"alice@example.com".data, wAuth,
      "docs.google.com/feeds".data, splitWs "read write".data⟩ :=
  (c8_field_shape exRow1.1 "alice@example.com".data wAuth
    "docs.google.com/feeds".data "read write".data (by decide)).1

/-- Claim C9: whenever the pipeline completes, grouping partitions the
decomposed in-scope events: the report keys are duplicate-free and are
exactly the actors occurring among the events, each report's event list is
precisely the sorted sequence restricted to its actor, and the
concatenation of all reports is a permutation of the event set (no event
dropped, none duplicated). -/
theorem map_fst_pairs {α β : Type} (f : α → β) :
    ∀ l : List α, (l.map (fun u => (u, f u))).map Prod.fst = l := by
  intro l
  induction l with
  | nil => rfl
  | cons a t ih => simp [ih]

theorem map_snd_pairs {α β : Type} (f : α → β) :
    ∀ l : List α, (l.map (fun u => (u, f u))).map Prod.snd = l.map f := by
  intro l
  induction l with
  | nil => rfl
  | cons a t ih => simp [ih]

theorem c9_grouping_partition (tzn : List Str) (rows : List (Str × Str))
    (evs l' : List AuthEvent) (_hok : pipelineToEvents tzn rows = .ok evs)
    (hsort : IsSortStep evs l') :
    ((groupByUser l').map Prod.fst).Nodup ∧
    (∀ u, u ∈ (groupByUser l').map Prod.fst ↔ u ∈ evs.map (fun e => e.user)) ∧
    (∀ u g, (u, g) ∈ groupByUser l' →
      g = l'.filter (fun e => decide (e.user = u))) ∧
    List.Perm ((groupByUser l').map Prod.snd).flatten evs := by
  obtain ⟨hperm, _⟩ := hsort
  have hkeys : (groupByUser l').map Prod.fst =
      insSort ((l'.map (fun e => e.user)).dedup) := by
    rw [groupByUser]
    exact map_fst_pairs _ _
  have hkeysnd : (insSort ((l'.map (fun e => e.user)).dedup)).Nodup :=
    ((insSort_perm _).nodup_iff).mpr (List.nodup_dedup _)
  refine ⟨?_, ?_, ?_, ?_⟩
  · rw [hkeys]
    exact hkeysnd
  · intro u
    rw [hkeys, (insSort_perm _).mem_iff, List.mem_dedup, (hperm.map _).mem_iff]
  · intro u g hmem
    rw [groupByUser] at hmem
    obtain ⟨v, _, heq⟩ := List.mem_map.mp hmem
    rw [Prod.mk.injEq] at heq
    rw [← heq.1]
    exact heq.2.symm
  · have hcov : ∀ e ∈ l', e.user ∈ insSort ((l'.map (fun e => e.user)).dedup) := by
      intro e he
      rw [(insSort_perm _).mem_iff, List.mem_dedup]
      exact List.mem_map.mpr ⟨e, he, rfl⟩
    have h1 := join_filter_perm (insSort ((l'.map (fun e => e.user)).dedup)) l'
      hkeysnd hcov
    have h2 : ((groupByUser l').map Prod.snd) =
        (insSort ((l'.map (fun e => e.user)).dedup)).map
          (fun u => l'.filter (fun e => decide (e.user = u))) := by
      rw [groupByUser]
      exact map_snd_pairs _ _
    rw [h2]
    exact h1.trans hperm

/-- Witness for C9 at the end-to-end example. -/
theorem c9_grouping_partition_witness :
    List.Perm ((groupByUser [exEv1, exEv2]).map Prod.snd).flatten
      [exEv1, exEv2] :=
  (c9_grouping_partition pacTzn exRows [exEv1, exEv2] [exEv1, exEv2]
    (by decide) ⟨by decide, by decide⟩).2.2.2

/-- Claim C10: the Record Filter is ASCII-case-insensitive — any two
event texts agreeing up to ASCII case are classified identically, and in
particular an upper-cased marker is still selected (SQL `LIKE`, not a
case-sensitive literal search). -/
theorem c10_filter_case_insensitive :
    (∀ s t : Str, s.map lowerC = t.map lowerC → inScope s = inScope t) ∧
    inScope "x DOCS.GOOGLE.COM/FEEDS y".data = true := by
  refine ⟨?_, by decide⟩
  intro s t h
  rw [inScope, inScope, h]

/-- Witness for C10 at a concrete case variant pair. -/
theorem c10_filter_case_insensitive_witness :
    inScope "DOCS.GOOGLE.COM/FEEDS x".data =
      inScope "docs.google.com/feeds x".data :=
  c10_filter_case_insensitive.1 "DOCS.GOOGLE.COM/FEEDS x".data
    "docs.google.com/feeds x".data (by decide)
